import Mathlib

/-!
Verification development for the pyine library: a shallow embedding of the
parts of `pyine/models.py`, `pyine/exceptions.py` and `pyine/api.py` that the
specified behaviours depend on, together with theorems settling each claim.

Python values flowing through the library are dynamically-typed JSON data;
they are embedded as the inductive `Pyine.JSON`.  Python dictionaries are
embedded as insertion-ordered association lists (`Pyine.Dict`), matching the
insertion-order semantics Python guarantees.  A Python expression that can
raise an exception is embedded with `Option`/`Except`, `none`/`.error`
standing for the raised exception.
-/

namespace Pyine

/-- Embedding of a parsed JSON value (the dynamically-typed Python data the
library manipulates).  Python floats produced by `pd.to_numeric` are embedded
as `Rat`; the pandas missing-value marker `NaN` is embedded as `null`. -/
inductive JSON where
  | null : JSON
  | str : String → JSON
  | num : Rat → JSON
  | arr : List JSON → JSON
  | obj : List (String × JSON) → JSON
deriving Repr

/-- A Python `dict` with values of type `α`: an insertion-ordered association
list whose keys are unique. -/
abbrev Dict (α : Type) := List (String × α)

/-- Python `d.get(k)` / `k in d` support: the value at the first occurrence
of key `k`, if any. -/
def dictGet {α : Type} : Dict α → String → Option α
  | [], _ => none
  | kv :: rest, k => if kv.1 = k then some kv.2 else dictGet rest k

/-- Python `d[k] = v` on a dict: replaces the value in place when the key is
present (keeping its position), otherwise appends the new key at the end. -/
def dictInsert {α : Type} (d : Dict α) (k : String) (v : α) : Dict α :=
  if (dictGet d k).isSome then
    d.map (fun kv => if kv.1 = k then (k, v) else kv)
  else d ++ [(k, v)]

/-- Python `{**d, **m}`: start from `d` and write every entry of `m` over it,
so colliding keys keep `d`'s position but take `m`'s value, and keys only in
`m` are appended in `m`'s order. -/
def dictUnion {α : Type} (d m : Dict α) : Dict α :=
  m.foldl (fun acc kv => dictInsert acc kv.1 kv.2) d

/-- Python `needle in hay` on lists of characters: `true` iff `needle` occurs
contiguously inside `hay` (the empty needle always occurs). -/
def charsIn (needle : List Char) : List Char → Bool
  | [] => needle.isEmpty
  | c :: cs => needle.isPrefixOf (c :: cs) || charsIn needle cs

/-- Python `needle in hay` on strings: substring containment. -/
def strIn (needle hay : String) : Bool :=
  charsIn needle.toList hay.toList

/-- Python `s.startswith(p)`. -/
def pyStartsWith (s p : String) : Bool :=
  p.toList.isPrefixOf s.toList

/-- Python `s.endswith(p)`. -/
def pyEndsWith (s p : String) : Bool :=
  p.toList.isSuffixOf s.toList

/-- Python `==` between a string literal and an arbitrary JSON value: only a
string with the same characters compares equal. -/
def jsonEqStr (k : String) : JSON → Bool
  | .str s => s == k
  | _ => false

/-- Python `k in j` where `k` is a string and `j` an arbitrary value: key
membership for a dict, element membership for a list, substring containment
for a string; a `TypeError` (embedded as `.error ()`) for `None` and numbers,
which are not containers. -/
def pyContains (k : String) : JSON → Except Unit Bool
  | .obj kvs => .ok (dictGet kvs k).isSome
  | .arr l => .ok (l.any (jsonEqStr k))
  | .str s => .ok (strIn k s)
  | .num _ => .error ()
  | .null => .error ()

/-- Python `j[k]` where `k` is a string: dict lookup (`KeyError` when the key
is absent); a `TypeError` for every other value, since lists accept only
integer indices and strings are not subscriptable by strings. -/
def pyGetItem (j : JSON) (k : String) : Except Unit JSON :=
  match j with
  | .obj kvs =>
    match dictGet kvs k with
    | some v => .ok v
    | none => .error ()
  | _ => .error ()

/-- Python `str(j)` as interpolated by an f-string, for the atomic values the
theorems below exercise; container values are rendered only approximately
(no theorem depends on them). -/
def pyStr : JSON → String
  | .null => "None"
  | .str s => s
  | .num q => toString q
  | .arr _ => "[...]"
  | .obj _ => "{...}"

/-!
Embedding of `pyine/models.py` (`Response.is_ine_error`,
`Response.raise_for_status`) and `pyine/exceptions.py`
(`INEInvalidRequestError.get_ine_errors`, `INEInvalidRequestError.__str__`).
-/

/-- Embedding of `Response.is_ine_error` (models.py lines 34-53): the Python
expression
`isinstance(d, list) and d and "Sucesso" in d[0] and "Falso" in d[0]["Sucesso"]`
with `d` the parsed body.  Short-circuit evaluation is preserved; a
`TypeError` raised by `in` or by the subscript is `.error ()`. -/
def is_ine_error (body : JSON) : Except Unit Bool :=
  match body with
  | .arr [] => .ok false
  | .arr (x :: _) =>
    match pyContains "Sucesso" x with
    | .error e => .error e
    | .ok false => .ok false
    | .ok true =>
      match pyGetItem x "Sucesso" with
      | .error e => .error e
      | .ok sucesso => pyContains "Falso" sucesso
  | _ => .ok false

/-- Outcome of `Response.raise_for_status`: normal return, the `HTTPError`
raised by `requests.Response.raise_for_status`, the library's
`INEInvalidRequestError`, or a `TypeError` escaping from `is_ine_error`. -/
inductive RFSOutcome where
  | ok : RFSOutcome
  | httpError : RFSOutcome
  | ineError : RFSOutcome
  | typeError : RFSOutcome
deriving DecidableEq

/-- Embedding of `Response.raise_for_status` (models.py lines 26-32):
`super().raise_for_status()` raises `HTTPError` exactly for status codes in
[400, 600); otherwise `INEInvalidRequestError` is raised iff `is_ine_error`
returns `True`. -/
def raise_for_status (status : Nat) (body : JSON) : RFSOutcome :=
  if 400 ≤ status ∧ status < 600 then .httpError
  else
    match is_ine_error body with
    | .ok true => .ineError
    | .ok false => .ok
    | .error _ => .typeError

/-- Embedding of `INEInvalidRequestError.get_ine_errors` (exceptions.py lines
29-48): returns `body[0]["Sucesso"]["Falso"]` when the body is a non-empty
list whose first element has a "Sucesso" field containing a "Falso" field
that is a non-empty list, and `[]` otherwise; a `TypeError` from `in` or a
subscript is `.error ()`. -/
def get_ine_errors (body : JSON) : Except Unit (List JSON) :=
  match body with
  | .arr [] => .ok []
  | .arr (x :: _) =>
    match pyContains "Sucesso" x with
    | .error e => .error e
    | .ok false => .ok []
    | .ok true =>
      match pyGetItem x "Sucesso" with
      | .error e => .error e
      | .ok sucesso =>
        match pyContains "Falso" sucesso with
        | .error e => .error e
        | .ok false => .ok []
        | .ok true =>
          match pyGetItem sucesso "Falso" with
          | .error e => .error e
          | .ok (.arr []) => .ok []
          | .ok (.arr fs) => .ok fs
          | .ok _ => .ok []
  | _ => .ok []

/-- The default `message` argument of `INEInvalidRequestError.__init__`
(exceptions.py line 15). -/
def defaultINEMessage : String := "INE returned an error."

/-- Embedding of `INEInvalidRequestError.__str__` (exceptions.py lines
23-27), taking the already-computed `self.ine_errors` list and
`self.message`: returns `f"{message} Error: {errors[0]['Msg']}"` when the
first error has a "Msg" field and `message` otherwise; indexing an empty
error list is an `IndexError` (`.error ()`). -/
def ineErrorStr (errors : List JSON) (message : String) : Except Unit String :=
  match errors.head? with
  | none => .error ()
  | some e0 =>
    match pyContains "Msg" e0 with
    | .error e => .error e
    | .ok true =>
      match pyGetItem e0 "Msg" with
      | .error e => .error e
      | .ok msg => .ok (message ++ " Error: " ++ pyStr msg)
    | .ok false => .ok message

/-!
Embedding of the period normalizer of `pyine/api.py`: `quarter_to_date`
(lines 10-29) and the `pd.to_datetime` calls with formats `"%Y"` and
`"%B %Y"` used on index labels and period scalars.
-/

/-- A `pandas.Timestamp` whose time-of-day part is midnight: the values
produced by `pd.to_datetime(...)` on the period labels handled here. -/
structure PDate where
  year : Nat
  month : Nat
  day : Nat
deriving DecidableEq

/-- Whether a first-of-month timestamp lies inside the representable
`pandas.Timestamp` range [1677-09-21, 2262-04-11]; outside it
`pd.to_datetime` raises `OutOfBoundsDatetime`. -/
def tsInBounds (year month : Nat) : Bool :=
  (1677 < year && year < 2262) || (year == 1677 && 10 ≤ month) || (year == 2262 && month ≤ 4)

/-- The numeric value of a digit string. -/
def natOfDigits (cs : List Char) : Nat :=
  cs.foldl (fun n c => n * 10 + (c.toNat - 48)) 0

/-- Parsing of the year part by `pd.to_datetime` with a `"%Y"`-prefixed
format, combined with a known month: `%Y` consumes one to four digits, the
whole token must be digits, and the resulting first-of-month timestamp must
be representable; `none` embeds the raised `ValueError`/`OutOfBoundsDatetime`. -/
def parseYM (year : String) (month : Nat) : Option PDate :=
  let cs := year.toList
  if (decide (1 ≤ cs.length) && decide (cs.length ≤ 4) && cs.all Char.isDigit
      && tsInBounds (natOfDigits cs) month) then
    some ⟨natOfDigits cs, month, 1⟩
  else
    none

/-- Splitting off one whitespace-separated word: Python `str.split()` helper
accumulating the current word in reverse. -/
def pySplitAux (acc : List Char) : List Char → List (List Char)
  | [] => if acc.isEmpty then [] else [acc.reverse]
  | c :: cs =>
    if c.isWhitespace then
      if acc.isEmpty then pySplitAux [] cs else acc.reverse :: pySplitAux [] cs
    else
      pySplitAux (c :: acc) cs

/-- Python `s.split()` with no argument: split on runs of whitespace,
discarding empty tokens. -/
def pySplitWS (s : String) : List String :=
  (pySplitAux [] s.toList).map (fun l => String.mk l)

/-- The `quarter_month_map` dict of `quarter_to_date` (api.py lines 17-22),
with the month strings "03"/"06"/"09"/"12" carried as the numbers they
denote in the assembled `f"{year}-{month}"`. -/
def quarter_month_map : Dict Nat :=
  [("1st", 3), ("2nd", 6), ("3rd", 9), ("4th", 12)]

/-- Embedding of `quarter_to_date` (api.py lines 10-29): split the label on
whitespace, read the quarter from token 0 and the year from token 2 (an
`IndexError` when fewer than three tokens — embedded as `none`), map the
quarter through `quarter_month_map` with default January, and parse
`f"{year}-{month}"` with `pd.to_datetime(..., format="%Y-%m")`, which yields
the first day of that month or raises (`none`). -/
def quarter_to_date (quarter_string : String) : Option PDate :=
  let parts := pySplitWS quarter_string
  match parts.get? 0, parts.get? 2 with
  | some quarter, some year =>
    parseYM year ((dictGet quarter_month_map quarter).getD 1)
  | _, _ => none

/-- The English month names recognised by `strptime`'s `%B` directive. -/
def monthNames : List String :=
  ["January", "February", "March", "April", "May", "June", "July",
   "August", "September", "October", "November", "December"]

/-- Parsing with `pd.to_datetime(value, format="%B %Y")`: a full English
month name, whitespace, and a year, yielding the first day of that month. -/
def parseBY (s : String) : Option PDate :=
  match pySplitWS s with
  | [mn, ys] =>
    match monthNames.findIdx? (· == mn) with
    | some i => parseYM ys (i + 1)
    | none => none
  | _ => none

/-- Parsing with `pd.to_datetime(value, format="%Y")`: a bare year, yielding
January 1 of that year. -/
def parseY (s : String) : Option PDate :=
  parseYM s 1

/-- Rendering with `Timestamp.strftime` of a zero-padded numeric field of the
given width. -/
def padNum (width n : Nat) : String :=
  let s := toString n
  String.mk (List.replicate (width - s.length) '0') ++ s

/-- Embedding of `Timestamp.strftime('%Y-%m-%d')`. -/
def PDate.strftime (d : PDate) : String :=
  padNum 4 d.year ++ "-" ++ padNum 2 d.month ++ "-" ++ padNum 2 d.day

/-!
Embedding of the dimension resolver of `get_indicator` (api.py lines
119-140): building `col_index_iterables`/`col_index_names` from the metadata
dimension descriptors and `Categoria_Dim`, and the Cartesian product
`pd.MultiIndex.from_product`.
-/

/-- One entry of `metadata["Dimensoes"]["Descricao_Dim"]`, restricted to the
two fields the code reads. -/
structure DimDescription where
  dim_num : String
  abrv : String

/-- The condition under which the loop body at api.py lines 127-134 appends a
category for dimension `dim_num`: the key starts with `f"Dim_Num{dim_num}"`,
and when `f"Dim{dim_num}"` is a key of `dim_values` the key must also end
with `f"_{dim_value}"`. -/
def matchesDim (dim_values : Dict String) (dim_num : String) (key : String) : Bool :=
  if pyStartsWith key ("Dim_Num" ++ dim_num) then
    match dictGet dim_values ("Dim" ++ dim_num) with
    | some dv => pyEndsWith key ("_" ++ dv)
    | none => true
  else false

/-- One iteration of the `Categoria_Dim` scan: when the key matches, append
`value[0]["categ_dsg"]`; `value` is embedded as the list of its records'
`categ_dsg` fields, so `value[0]["categ_dsg"]` is `value.head?` and an empty
record list is the Python `IndexError` (`none`). -/
def dimColumnsStep (dim_values : Dict String) (dim_num : String)
    (acc : Option (List String)) (kv : String × List String) : Option (List String) :=
  match acc with
  | none => none
  | some cols =>
    if matchesDim dim_values dim_num kv.1 then
      match kv.2.head? with
      | some c => some (cols ++ [c])
      | none => none
    else some cols

/-- The `dim_columns` list built for one dimension (api.py lines 125-134):
a scan over `metadata["Dimensoes"]["Categoria_Dim"][0].items()`. -/
def dim_columns (catDim : Dict (List String)) (dim_values : Dict String)
    (dim_num : String) : Option (List String) :=
  catDim.foldl (dimColumnsStep dim_values dim_num) (some [])

/-- One iteration of the descriptor loop of api.py lines 119-137: a
dimension whose `dim_num` is the string "1" is skipped; every other
dimension contributes its `dim_columns` to `col_index_iterables` and its
`abrv` to `col_index_names`. -/
def colAxisStep (catDim : Dict (List String)) (dim_values : Dict String)
    (acc : List (List String) × List String) (d : DimDescription) :
    Option (List (List String) × List String) :=
  if d.dim_num == "1" then some acc
  else
    match dim_columns catDim dim_values d.dim_num with
    | some cols => some (acc.1 ++ [cols], acc.2 ++ [d.abrv])
    | none => none

/-- The whole descriptor loop of api.py lines 119-137, producing
`(col_index_iterables, col_index_names)`. -/
def buildColAxis (descrs : List DimDescription) (catDim : Dict (List String))
    (dim_values : Dict String) : Option (List (List String) × List String) :=
  descrs.foldlM (colAxisStep catDim dim_values) ([], [])

/-- The `dim_columns` lists of a run of the descriptor loop, one per
non-skipped dimension, in order: the contents of `col_index_iterables`. -/
def dimColumnsList (catDim : Dict (List String)) (dim_values : Dict String) :
    List DimDescription → Option (List (List String))
  | [] => some []
  | d :: ds =>
    match dim_columns catDim dim_values d.dim_num, dimColumnsList catDim dim_values ds with
    | some c, some cs => some (c :: cs)
    | _, _ => none

/-- The `value[0]["categ_dsg"]` projections of a list of `Categoria_Dim`
entries, failing on an entry with an empty record list. -/
def headsOf : List (String × List String) → Option (List String)
  | [] => some []
  | kv :: rest =>
    match kv.2.head?, headsOf rest with
    | some c, some cs => some (c :: cs)
    | _, _ => none

/-- `pd.MultiIndex.from_product` (api.py line 139): the ordered Cartesian
product of the iterables, the rightmost level varying fastest. -/
def listProd : List (List String) → List (List String)
  | [] => [[]]
  | l :: ls => l.flatMap (fun x => (listProd ls).map (fun t => x :: t))

/-- The level names assigned at api.py line 140:
`["Location"] + col_index_names[1:]`. -/
def colAxisNames (col_index_names : List String) : List String :=
  "Location" :: col_index_names.drop 1

/-!
Embedding of the metadata merger of `get_indicator` (api.py lines 162-207):
`metadata_key_map`, the merge loop over `{**data, **metadata}`, and the
derived `geo_level` tag.
-/

/-- The `metadata_key_map` dict (api.py lines 163-176).  Note that both
"UltimoPref" and "UltimoPeriodo" map to "last_period". -/
def metadata_key_map : Dict String :=
  [("IndicadorCod", "code"),
   ("IndicadorDsg", "description"),
   ("MetaInfUrl", "meta_info_url"),
   ("DataUltimoAtualizacao", "last_update_date"),
   ("Periodic", "periodicity"),
   ("PrimeiroPeriodo", "first_period"),
   ("UltimoPref", "last_period"),
   ("UltimoPeriodo", "last_period"),
   ("UnidadeMedida", "unit"),
   ("Potencia10", "power_of_10"),
   ("PrecisaoDecimal", "decimal_precision"),
   ("Lingua", "language")]

/-- `metadata_key_map.get(key, key)` (api.py line 200). -/
def canonKey (key : String) : String :=
  (dictGet metadata_key_map key).getD key

/-- The keys skipped by the merge loop (api.py line 187). -/
def excludedMergeKeys : List String :=
  ["Dados", "DataExtracao", "Dimensoes", "Sucesso"]

/-- The keys whose value is re-parsed and re-rendered as an ISO date
(api.py line 190). -/
def dateMergeKeys : List String :=
  ["PrimeiroPeriodo", "UltimoPeriodo"]

/-- The date normalisation at api.py lines 190-198 applied to a first/last
period value: parse it according to the periodicity and render it with
`strftime('%Y-%m-%d')`.  A non-string value, an unparsable label, or an
unrecognised periodicity (which leaves `value` a plain string whose
`.strftime` raises `AttributeError`) all embed as `none`. -/
def normalizePeriodValue (periodic : String) (v : JSON) : Option JSON :=
  if periodic == "Annual" || periodic == "Decennial" then
    match v with
    | .str s => (parseY s).map (fun d => JSON.str d.strftime)
    | _ => none
  else if periodic == "Quarterly" then
    match v with
    | .str s => (quarter_to_date s).map (fun d => JSON.str d.strftime)
    | _ => none
  else if periodic == "Monthly" then
    match v with
    | .str s => (parseBY s).map (fun d => JSON.str d.strftime)
    | _ => none
  else none

/-- One iteration of the merge loop (api.py lines 186-200) with `metadata`'s
`Periodic` field needed by the date branch: skip the excluded keys, normalise
the date keys, and write the value at `metadata_key_map.get(key, key)`. -/
def mergeStep (metaP : Dict JSON) (acc : Dict JSON) (kv : String × JSON) : Option (Dict JSON) :=
  if excludedMergeKeys.contains kv.1 then some acc
  else if dateMergeKeys.contains kv.1 then
    match dictGet metaP "Periodic" with
    | some (.str p) =>
      (normalizePeriodValue p kv.2).map (fun v => dictInsert acc (canonKey kv.1) v)
    | some _ => none
    | none => none
  else
    some (dictInsert acc (canonKey kv.1) kv.2)

/-- The merged metadata dict of api.py lines 178-200: the literal with
`extraction_date` and `source`, then the loop over `{**data, **metadata}`.
A missing `DataExtracao` in either payload is a `KeyError` (`none`). -/
def mergedMetadata (dataP metaP : Dict JSON) : Option (Dict JSON) := do
  let ded ← dictGet dataP "DataExtracao"
  let dem ← dictGet metaP "DataExtracao"
  let init : Dict JSON :=
    [("extraction_date", .obj [("data", ded), ("metadata", dem)]),
     ("source", .str "INE")]
  (dictUnion dataP metaP).foldlM (mergeStep metaP) init

/-- The `geo_level` derivation from the description string (api.py lines
202-207): the marker "(NUTS - 2013)" is tested first, then "(NUTS - 2002)",
else "national". -/
def geoLevelOf (description : String) : String :=
  if strIn "(NUTS - 2013)" description then "nuts-2013"
  else if strIn "(NUTS - 2002)" description then "nuts-2002"
  else "national"

/-- The api.py lines 202-207 step on the merged dict: read
`merged_metadata["description"]` (a `KeyError` when absent, a `TypeError`
from `in` when not a string) and insert the derived `geo_level` tag. -/
def addGeoLevel (m : Dict JSON) : Option (Dict JSON) :=
  match dictGet m "description" with
  | some (.str d) => some (dictInsert m "geo_level" (.str (geoLevelOf d)))
  | some _ => none
  | none => none

/-!
Embedding of the query construction of `request` for `data_type == "data"`
(api.py lines 50-58).  The Python code mutates the caller's `dim_values`
dict in place; the embedding returns the dict's new state alongside the
query string.
-/

/-- The `data_type == "data"` branch of `request` (api.py lines 50-58):
when `dim_values` is `None` the query string is the literal "Dim1=T" and no
dict exists to mutate; otherwise "Dim1" is inserted with value "T" when
absent (an in-place mutation of the caller's dict) and the query string joins
`f"{key}={value}"` over the dict's items with "&". -/
def requestDataQuery (dim_values : Option (Dict String)) : Option (Dict String) × String :=
  match dim_values with
  | none => (none, "Dim1=T")
  | some dv =>
    let dv' := if (dictGet dv "Dim1").isSome then dv else dictInsert dv "Dim1" "T"
    (some dv', String.intercalate "&" (dv'.map (fun kv => kv.1 ++ "=" ++ kv.2)))

/-!
Embedding of `Indicator.to_dict` (models.py lines 101-122): melting the wide
table into flat records with a coerced numeric "Value" field.
-/

/-- The built indicator table as `to_dict` sees it: a datetime row index
named "Period", multi-level columns with their level names, and row-major
cells where `none` is the pandas missing-value marker `NaN`. -/
structure Table where
  rowLabels : List PDate
  colNames : List String
  colKeys : List (List String)
  cells : List (List (Option JSON))

/-- Parsing of a decimal literal as Python `float` does inside
`pd.to_numeric`: optional sign, digits with at most one decimal point
(scientific notation, inf/nan spellings and surrounding whitespace, which no
theorem below exercises, are not modelled). -/
def pyParseFloat (s : String) : Option Rat :=
  match s.toList with
  | [] => none
  | cs =>
    let signed : Bool × List Char :=
      match cs with
      | '-' :: r => (true, r)
      | '+' :: r => (false, r)
      | r => (false, r)
    match (signed.2.splitOn '.') with
    | [w] =>
      if w ≠ [] && w.all Char.isDigit then
        some (if signed.1 then -(natOfDigits w : Rat) else (natOfDigits w : Rat))
      else none
    | [w, f] =>
      if (w ++ f) ≠ [] && w.all Char.isDigit && f.all Char.isDigit then
        let mag : Rat := (natOfDigits w : Rat) + (natOfDigits f : Rat) / ((10 : Rat) ^ f.length)
        some (if signed.1 then -mag else mag)
      else none
    | _ => none

/-- `pd.to_numeric(x, errors="coerce")` on one cell value: numbers pass
through, numeric strings are parsed, and everything else becomes `NaN`
(`none`). -/
def parseNumeric : JSON → Option Rat
  | .num q => some q
  | .str s => pyParseFloat s
  | .null => none
  | .arr _ => none
  | .obj _ => none

/-- The coerced "Value" of one cell (models.py line 116): a missing cell
(`NaN`) or an uncoercible value becomes the null numeric marker `NaN`
(embedded `JSON.null`); a coercible value becomes its number. -/
def to_numeric_coerce : Option JSON → JSON
  | none => .null
  | some v =>
    match parseNumeric v with
    | some q => .num q
    | none => .null

/-- The cell of `t` at row `i`, column `j` (missing coordinates read as
`NaN`, which melt never produces for an in-bounds rectangular frame). -/
def Table.cellAt (t : Table) (i j : Nat) : Option JSON :=
  ((t.cells.get? i).bind (fun r => r.get? j)).getD none

/-- Fallback date for an out-of-bounds row access (never reached for
in-bounds rows). -/
def defaultPDate : PDate := ⟨1970, 1, 1⟩

/-- The flat record that `df.melt` plus the "Value" coercion and the
`Period` `strftime` produce for row `i` and column `j` (models.py lines
107-120): the ISO date under "Period", one field per column level named by
its level name, and the coerced "Value". -/
def Table.record (t : Table) (i j : Nat) : Dict JSON :=
  ("Period", .str (((t.rowLabels.get? i).getD defaultPDate).strftime))
    :: ((t.colNames.zip ((t.colKeys.get? j).getD [])).map (fun nc => (nc.1, JSON.str nc.2))
      ++ [("Value", to_numeric_coerce (t.cellAt i j))])

/-- The record list under the "data" key of `to_dict`
(`df_melted.to_dict(orient="records")`): `melt` stacks column by column, each
column contributing every row in row order. -/
def Table.toDictData (t : Table) : List (Dict JSON) :=
  (List.range t.colKeys.length).flatMap
    (fun j => (List.range t.rowLabels.length).map (fun i => t.record i j))

/-- Embedding of `Indicator.to_dict` (models.py lines 101-122): every
metadata field, plus the melted records under "data". -/
def Indicator.to_dict (t : Table) (metadata : Dict JSON) : Dict JSON :=
  dictInsert metadata "data" (.arr (t.toDictData.map JSON.obj))

/-!
Claim-side definitions: conditions written from the specification's own
words, for comparison against the code's embedded behaviour.
-/

/-- The claim's semantic-failure condition, following the specification's
words: the parsed body is a non-empty list whose first element contains a
"Sucesso" field that itself contains a non-empty failure list under
"Falso". -/
def specSemanticFailure (body : JSON) : Bool :=
  match body with
  | .arr (.obj kvs :: _) =>
    match dictGet kvs "Sucesso" with
    | some (.obj svs) =>
      match dictGet svs "Falso" with
      | some (.arr (_ :: _)) => true
      | _ => false
    | _ => false
  | _ => false

/-- The condition the code actually tests: the first element's "Sucesso"
field merely has a "Falso" key — whether the failure list under it is empty
is never checked. -/
def falsoKeyPresent (body : JSON) : Bool :=
  match body with
  | .arr (.obj kvs :: _) =>
    match dictGet kvs "Sucesso" with
    | some (.obj svs) => (dictGet svs "Falso").isSome
    | _ => false
  | _ => false

/-- The claim's "dimension 1's own categories": the category designations
(`value[0]["categ_dsg"]`) of the `Categoria_Dim` entries whose key encodes
dimension number 1. -/
def specDim1Categories (catDim : Dict (List String)) : List String :=
  (catDim.filter (fun kv => pyStartsWith kv.1 "Dim_Num1")).filterMap (fun kv => kv.2.head?)

/-!
Library lemmas about the dict embedding.
-/

theorem dictInsert_of_get_none {α : Type} (d : Dict α) (k : String) (v : α)
    (h : dictGet d k = none) : dictInsert d k v = d ++ [(k, v)] := by
  simp [dictInsert, h]

theorem dictGet_map_replace {α : Type} (d : Dict α) (k : String) (v : α) (k' : String)
    (h : k' ≠ k) :
    dictGet (d.map (fun kv => if kv.1 = k then (k, v) else kv)) k' = dictGet d k' := by
  induction d with
  | nil => rfl
  | cons kv rest ih =>
    by_cases hk : kv.1 = k
    · simp only [List.map_cons, if_pos hk, dictGet]
      rw [if_neg (fun hc : k = k' => h hc.symm),
        if_neg (fun hc : kv.1 = k' => h ((hk ▸ hc : k = k')).symm)]
      exact ih
    · simp only [List.map_cons, if_neg hk, dictGet]
      by_cases h2 : kv.1 = k'
      · rw [if_pos h2, if_pos h2]
      · rw [if_neg h2, if_neg h2]
        exact ih

theorem dictGet_append_single {α : Type} (d : Dict α) (k : String) (v : α) (k' : String)
    (h : k' ≠ k) :
    dictGet (d ++ [(k, v)]) k' = dictGet d k' := by
  induction d with
  | nil =>
    simp only [List.nil_append, dictGet]
    rw [if_neg (fun hc : k = k' => h hc.symm)]
  | cons kv rest ih =>
    simp only [List.cons_append, dictGet]
    by_cases h2 : kv.1 = k'
    · rw [if_pos h2, if_pos h2]
    · rw [if_neg h2, if_neg h2]
      exact ih

theorem dictGet_map_replace_self {α : Type} (d : Dict α) (k : String) (v : α)
    (h : (dictGet d k).isSome) :
    dictGet (d.map (fun kv => if kv.1 = k then (k, v) else kv)) k = some v := by
  induction d with
  | nil => simp [dictGet] at h
  | cons kv rest ih =>
    by_cases hk : kv.1 = k
    · simp [List.map_cons, if_pos hk, dictGet]
    · simp only [dictGet, if_neg hk] at h
      simp only [List.map_cons, if_neg hk, dictGet, if_neg hk]
      exact ih h

theorem dictGet_append_single_self {α : Type} (d : Dict α) (k : String) (v : α)
    (h : dictGet d k = none) :
    dictGet (d ++ [(k, v)]) k = some v := by
  induction d with
  | nil => simp [dictGet]
  | cons kv rest ih =>
    by_cases hk : kv.1 = k
    · simp [dictGet, if_pos hk] at h
    · simp only [dictGet, if_neg hk] at h
      simp only [List.cons_append, dictGet, if_neg hk]
      exact ih h

theorem dictGet_dictInsert_self {α : Type} (d : Dict α) (k : String) (v : α) :
    dictGet (dictInsert d k v) k = some v := by
  unfold dictInsert
  by_cases hp : (dictGet d k).isSome
  · rw [if_pos hp]
    exact dictGet_map_replace_self d k v hp
  · rw [if_neg hp]
    exact dictGet_append_single_self d k v (Option.not_isSome_iff_eq_none.mp hp)

theorem dictGet_dictInsert_other {α : Type} (d : Dict α) (k : String) (v : α)
    (k' : String) (h : k' ≠ k) : dictGet (dictInsert d k v) k' = dictGet d k' := by
  unfold dictInsert
  by_cases hp : (dictGet d k).isSome
  · rw [if_pos hp]
    exact dictGet_map_replace d k v k' h
  · rw [if_neg hp]
    exact dictGet_append_single d k v k' h

theorem foldl_dictInsert_preserve {α : Type} (K : String)
    (items : List (String × α)) (acc : Dict α)
    (h : ∀ kv ∈ items, kv.1 ≠ K) :
    dictGet (items.foldl (fun acc kv => dictInsert acc kv.1 kv.2) acc) K = dictGet acc K := by
  induction items generalizing acc with
  | nil => rfl
  | cons kv rest ih =>
    simp only [List.foldl_cons]
    rw [ih _ (fun x hx => h x (List.mem_cons_of_mem kv hx)),
      dictGet_dictInsert_other _ _ _ _ (Ne.symm (h kv (List.mem_cons_self kv rest)))]

theorem dictGet_eq_some_split {α : Type} (l : List (String × α)) (K : String) (v : α)
    (h : dictGet l K = some v) :
    ∃ pre post, l = pre ++ (K, v) :: post ∧ ∀ kv ∈ pre, kv.1 ≠ K := by
  induction l with
  | nil => simp [dictGet] at h
  | cons kv rest ih =>
    by_cases h2 : kv.1 = K
    · refine ⟨[], rest, ?_, by simp⟩
      simp only [dictGet, if_pos h2] at h
      obtain ⟨a, b⟩ := kv
      obtain ⟨rfl⟩ : b = v := by simpa using h
      simp only [List.nil_append, List.cons.injEq, and_true]
      exact Prod.ext h2 rfl
    · simp only [dictGet, if_neg h2] at h
      obtain ⟨pre, post, heq, hpre⟩ := ih h
      refine ⟨kv :: pre, post, by simp [heq], ?_⟩
      intro x hx
      rcases List.mem_cons.mp hx with hx | hx
      · subst hx
        exact h2
      · exact hpre x hx

theorem dictGet_mem {α : Type} (l : List (String × α)) (k : String) (v : α)
    (h : dictGet l k = some v) : (k, v) ∈ l := by
  obtain ⟨pre, post, heq, _⟩ := dictGet_eq_some_split l k v h
  subst heq
  simp

/-!
C10: `request` with `data_type == "data"` inserts "Dim1" into the caller's
`dim_values` mapping.
-/

/-- C10: for every caller-supplied `dim_values` mapping lacking the key
"Dim1", the `data` branch of `request` mutates the mapping by appending
"Dim1" mapped to "T" at its end — leaving every other entry unchanged, in
order — and builds the query string from the updated mapping, so that the
query string joins every original entry followed by "Dim1=T". -/
theorem requestDataQuery_inserts_Dim1 (dv : Dict String)
    (h : dictGet dv "Dim1" = none) :
    requestDataQuery (some dv) =
      (some (dv ++ [("Dim1", "T")]),
        String.intercalate "&" ((dv ++ [("Dim1", "T")]).map (fun kv => kv.1 ++ "=" ++ kv.2))) := by
  have hins := dictInsert_of_get_none dv "Dim1" "T" h
  simp [requestDataQuery, h, hins]

/-- Witness for C10 at the concrete mapping `{"Dim2": "M"}`. -/
theorem requestDataQuery_inserts_Dim1_witness :
    requestDataQuery (some [("Dim2", "M")]) =
      (some [("Dim2", "M"), ("Dim1", "T")], "Dim2=M&Dim1=T") := by
  have h := requestDataQuery_inserts_Dim1 [("Dim2", "M")] rfl
  simpa using h

/-!
C4: the `geo_level` derivation and the priority of the two NUTS markers.
-/

/-- C4 counterexample: a description containing both markers receives the
newer tag "nuts-2013", not the older tag "nuts-2002" as the claim states,
because api.py lines 202-207 test "(NUTS - 2013)" first. -/
theorem geoLevelOf_both_markers_counterexample :
    strIn "(NUTS - 2002)" "Pop (NUTS - 2002) (NUTS - 2013)" = true ∧
    strIn "(NUTS - 2013)" "Pop (NUTS - 2002) (NUTS - 2013)" = true ∧
    geoLevelOf "Pop (NUTS - 2002) (NUTS - 2013)" = "nuts-2013" ∧
    geoLevelOf "Pop (NUTS - 2002) (NUTS - 2013)" ≠ "nuts-2002" := by
  refine ⟨rfl, rfl, rfl, ?_⟩
  intro hc
  have h3 : geoLevelOf "Pop (NUTS - 2002) (NUTS - 2013)" = "nuts-2013" := rfl
  rw [hc] at h3
  simp at h3

/-- C4 amended: the newer marker "(NUTS - 2013)" is checked first; a
description containing it is tagged "nuts-2013" (even when the older marker
is also present), one containing only the older marker "(NUTS - 2002)" is
tagged "nuts-2002", and one containing neither is tagged "national". -/
theorem geoLevelOf_marker_priority (s : String) :
    (strIn "(NUTS - 2013)" s = true → geoLevelOf s = "nuts-2013") ∧
    (strIn "(NUTS - 2013)" s = false → strIn "(NUTS - 2002)" s = true →
      geoLevelOf s = "nuts-2002") ∧
    (strIn "(NUTS - 2013)" s = false → strIn "(NUTS - 2002)" s = false →
      geoLevelOf s = "national") := by
  refine ⟨fun h => ?_, fun h h2 => ?_, fun h h2 => ?_⟩
  · simp [geoLevelOf, h]
  · simp [geoLevelOf, h, h2]
  · simp [geoLevelOf, h, h2]

/-- Witness for C4 at a description containing only the older marker. -/
theorem geoLevelOf_marker_priority_witness :
    geoLevelOf "Pop (NUTS - 2002)" = "nuts-2002" :=
  (geoLevelOf_marker_priority "Pop (NUTS - 2002)").2.1 rfl rfl

/-!
C5: `quarter_to_date` on quarterly period labels.
-/

/-- C5 counterexample: on the claimed label form "{Ordinal} quarter of
{Year}" the third whitespace token is "of", so the year parse of
`pd.to_datetime` fails and `quarter_to_date` raises instead of returning the
first day of the quarter-end month. -/
theorem quarter_to_date_of_label_counterexample :
    pySplitWS "1st quarter of 2021" = ["1st", "quarter", "of", "2021"] ∧
    quarter_to_date "1st quarter of 2021" = none ∧
    quarter_to_date "1st quarter of 2021" ≠ some ⟨2021, 3, 1⟩ := by
  refine ⟨rfl, rfl, ?_⟩
  intro hc
  have h2 : (none : Option PDate) = some ⟨2021, 3, 1⟩ := hc
  simp at h2

/-- C5 amended: `quarter_to_date` reads the quarter from the first and the
year from the third whitespace token, so on three-token labels
"{Ordinal} quarter {Year}" (no "of") with a parsable in-range year it
returns the first day of the quarter-end month (March, June, September,
December for 1st, 2nd, 3rd, 4th), defaults to January for an unrecognised
ordinal, and is deterministic in the label's token list. -/
theorem quarter_to_date_three_token_form (s q w ys : String)
    (hsplit : pySplitWS s = [q, w, ys])
    (h1 : 1 ≤ ys.toList.length) (h2 : ys.toList.length ≤ 4)
    (h3 : ys.toList.all Char.isDigit = true) :
    (∀ m, dictGet quarter_month_map q = some m →
      tsInBounds (natOfDigits ys.toList) m = true →
      quarter_to_date s = some ⟨natOfDigits ys.toList, m, 1⟩) ∧
    (dictGet quarter_month_map q = none →
      tsInBounds (natOfDigits ys.toList) 1 = true →
      quarter_to_date s = some ⟨natOfDigits ys.toList, 1, 1⟩) ∧
    (∀ s2, pySplitWS s2 = pySplitWS s → quarter_to_date s2 = quarter_to_date s) := by
  refine ⟨fun m hq hb => ?_, fun hq hb => ?_, fun s2 hs2 => ?_⟩
  · simp [quarter_to_date, hsplit, parseYM, hq]
    exact ⟨h1, h2, List.all_eq_true.mp h3, hb⟩
  · simp [quarter_to_date, hsplit, parseYM, hq]
    exact ⟨h1, h2, List.all_eq_true.mp h3, hb⟩
  · simp only [quarter_to_date, hs2]

/-- Witness for C5 at the three-token label "1st quarter 2021". -/
theorem quarter_to_date_three_token_form_witness :
    quarter_to_date "1st quarter 2021" = some ⟨2021, 3, 1⟩ := by
  have h := (quarter_to_date_three_token_form "1st quarter 2021" "1st" "quarter" "2021"
    rfl (by decide) (by decide) (by decide)).1 3 rfl (by decide)
  exact h

/-!
C1: when `raise_for_status` raises the semantic failure.
-/

/-- C1 counterexample: a 200-status body whose "Falso" list is present but
empty.  The claim says no semantic failure is raised for it, yet
`raise_for_status` raises `INEInvalidRequestError`. -/
theorem raise_for_status_empty_falso_counterexample :
    raise_for_status 200 (.arr [.obj [("Sucesso", .obj [("Falso", .arr [])])]]) =
      .ineError ∧
    specSemanticFailure (.arr [.obj [("Sucesso", .obj [("Falso", .arr [])])]]) = false := by
  exact ⟨rfl, rfl⟩

/-- C1 amended: for bodies of the wire shape (first element an object whose
"Sucesso" value, when present, is an object), `raise_for_status` raises the
semantic API failure if and only if the HTTP status is non-error and the
first element's "Sucesso" field has a "Falso" key — regardless of whether
the failure list under that key is empty. -/
theorem raise_for_status_iff_falso_key (status : Nat) (body : JSON)
    (hshape : ∀ x xs, body = .arr (x :: xs) →
      ∃ kvs, x = .obj kvs ∧
        ∀ sv, dictGet kvs "Sucesso" = some sv → ∃ svs, sv = .obj svs) :
    raise_for_status status body = .ineError ↔
      ¬(400 ≤ status ∧ status < 600) ∧ falsoKeyPresent body = true := by
  by_cases hs : 400 ≤ status ∧ status < 600
  · simp [raise_for_status, hs]
  · cases body with
    | arr l =>
      cases l with
      | nil => simp [raise_for_status, hs, is_ine_error, falsoKeyPresent]
      | cons x xs =>
        obtain ⟨kvs, rfl, hsuc⟩ := hshape x xs rfl
        cases hsv : dictGet kvs "Sucesso" with
        | none =>
          simp [raise_for_status, hs, is_ine_error, pyContains, hsv, falsoKeyPresent]
        | some sv =>
          obtain ⟨svs, rfl⟩ := hsuc sv hsv
          cases hfs : (dictGet svs "Falso").isSome <;>
            simp [raise_for_status, hs, is_ine_error, pyContains, pyGetItem, hsv,
              falsoKeyPresent, hfs]
    | null => simp [raise_for_status, hs, is_ine_error, falsoKeyPresent]
    | str s => simp [raise_for_status, hs, is_ine_error, falsoKeyPresent]
    | num q => simp [raise_for_status, hs, is_ine_error, falsoKeyPresent]
    | obj kvs => simp [raise_for_status, hs, is_ine_error, falsoKeyPresent]

/-- Witness for C1 at status 200 and a body with a one-element failure
list. -/
theorem raise_for_status_iff_falso_key_witness :
    raise_for_status 200 (.arr [.obj [("Sucesso", .obj [("Falso", .arr [.obj []])])]]) =
      .ineError := by
  refine (raise_for_status_iff_falso_key 200
    (.arr [.obj [("Sucesso", .obj [("Falso", .arr [.obj []])])]]) ?_).mpr ⟨by simp, rfl⟩
  intro x xs h
  refine ⟨[("Sucesso", .obj [("Falso", .arr [.obj []])])], ?_, ?_⟩
  · have h1 : JSON.obj [("Sucesso", .obj [("Falso", .arr [.obj []])])] :: ([] : List JSON)
        = x :: xs := by injection h
    exact (List.cons.inj h1).1.symm
  · intro sv hsv
    refine ⟨[("Falso", .arr [.obj []])], ?_⟩
    simpa [dictGet] using hsv.symm

/-!
C7: the string form of a raised `INEInvalidRequestError`.
-/

/-- C7: for an `INEInvalidRequestError` raised from a body whose first
element's failure list is non-empty (so that `get_ine_errors` returns that
list), the string form with the default base message equals the base message
followed by the first error's "Msg" value — in particular it contains that
message — when the "Msg" field is present and a string, and is the fixed base
message alone when the "Msg" field is absent. -/
theorem ineErrorStr_first_msg (body : JSON) (e0 : Dict JSON) (rest : List JSON)
    (_herr : get_ine_errors body = .ok (.obj e0 :: rest)) :
    (∀ m, dictGet e0 "Msg" = some (.str m) →
      ineErrorStr (.obj e0 :: rest) defaultINEMessage =
        .ok (defaultINEMessage ++ " Error: " ++ m) ∧
      ∃ p q, defaultINEMessage ++ " Error: " ++ m = p ++ m ++ q) ∧
    (dictGet e0 "Msg" = none →
      ineErrorStr (.obj e0 :: rest) defaultINEMessage = .ok defaultINEMessage) := by
  constructor
  · intro m hm
    constructor
    · simp [ineErrorStr, pyContains, pyGetItem, hm, pyStr]
    · exact ⟨defaultINEMessage ++ " Error: ", "", by simp⟩
  · intro hm
    simp [ineErrorStr, pyContains, pyGetItem, hm]

/-- Witness for C7 at a body carrying one error record with a message and a
second body whose record has no message. -/
theorem ineErrorStr_first_msg_witness :
    ineErrorStr [.obj [("Msg", .str "bad request")]] defaultINEMessage =
      .ok "INE returned an error. Error: bad request" := by
  have h := (ineErrorStr_first_msg
    (.arr [.obj [("Sucesso", .obj [("Falso", .arr [.obj [("Msg", .str "bad request")]])])]])
    [("Msg", .str "bad request")] [] rfl).1 "bad request" rfl
  exact h.1

/-!
Lemmas about the dimension resolver.
-/

theorem dim_columns_foldl_none (catDim : List (String × List String))
    (dv : Dict String) (n : String) :
    catDim.foldl (dimColumnsStep dv n) none = none := by
  induction catDim with
  | nil => rfl
  | cons kv rest ih => simpa [dimColumnsStep] using ih

theorem dim_columns_go (dv : Dict String) (n : String) :
    ∀ (l : List (String × List String)) (cols : List String),
    l.foldl (dimColumnsStep dv n) (some cols) =
      (headsOf (l.filter (fun kv => matchesDim dv n kv.1))).map (fun cs => cols ++ cs) := by
  intro l
  induction l with
  | nil => intro cols; simp [headsOf]
  | cons kv rest ih =>
    intro cols
    cases hm : matchesDim dv n kv.1 with
    | false => simp [dimColumnsStep, hm, ih]
    | true =>
      cases hh : kv.2.head? with
      | none =>
        simp only [List.foldl_cons, dimColumnsStep, hm, if_true, hh]
        rw [dim_columns_foldl_none]
        simp [List.filter_cons, hm, headsOf, hh]
      | some c =>
        simp only [List.foldl_cons, dimColumnsStep, hm, if_true, hh]
        rw [ih]
        simp only [List.filter_cons, hm, if_true, headsOf, hh]
        cases headsOf (rest.filter (fun kv => matchesDim dv n kv.1)) with
        | none => rfl
        | some cs => simp

theorem dim_columns_eq_headsOf (catDim : List (String × List String))
    (dv : Dict String) (n : String) :
    dim_columns catDim dv n = headsOf (catDim.filter (fun kv => matchesDim dv n kv.1)) := by
  have h := dim_columns_go dv n catDim []
  simpa [dim_columns] using h

theorem headsOf_length (l : List (String × List String)) (cs : List String)
    (h : headsOf l = some cs) : cs.length = l.length := by
  induction l generalizing cs with
  | nil => simp [headsOf] at h; simp [h]
  | cons kv rest ih =>
    simp only [headsOf] at h
    cases hh : kv.2.head? with
    | none => rw [hh] at h; exact absurd h (by simp)
    | some c =>
      rw [hh] at h
      cases hr : headsOf rest with
      | none => rw [hr] at h; exact absurd h (by simp)
      | some cs2 =>
        rw [hr] at h
        obtain ⟨rfl⟩ : c :: cs2 = cs := by simpa using h
        simp [ih cs2 hr]

theorem headsOf_sublist (l1 l2 : List (String × List String)) (hsub : l1.Sublist l2)
    (c1 c2 : List String) (h1 : headsOf l1 = some c1) (h2 : headsOf l2 = some c2) :
    c1.Sublist c2 := by
  induction hsub generalizing c1 c2 with
  | slnil =>
    obtain ⟨rfl⟩ : ([] : List String) = c1 := by simpa [headsOf] using h1
    simp
  | @cons l1 l2 kv hs ih =>
    simp only [headsOf] at h2
    cases hh : kv.2.head? with
    | none => rw [hh] at h2; exact absurd h2 (by simp)
    | some c =>
      rw [hh] at h2
      cases hr : headsOf l2 with
      | none => rw [hr] at h2; exact absurd h2 (by simp)
      | some cs2 =>
        rw [hr] at h2
        obtain ⟨rfl⟩ : c :: cs2 = c2 := by simpa using h2
        exact List.Sublist.cons c (ih c1 cs2 h1 hr)
  | @cons₂ l1 l2 kv hs ih =>
    simp only [headsOf] at h1 h2
    cases hh : kv.2.head? with
    | none => rw [hh] at h1; exact absurd h1 (by simp)
    | some c =>
      rw [hh] at h1 h2
      cases hr1 : headsOf l1 with
      | none => rw [hr1] at h1; exact absurd h1 (by simp)
      | some cs1 =>
        cases hr2 : headsOf l2 with
        | none => rw [hr2] at h2; exact absurd h2 (by simp)
        | some cs2 =>
          rw [hr1] at h1
          rw [hr2] at h2
          obtain ⟨rfl⟩ : c :: cs1 = c1 := by simpa using h1
          obtain ⟨rfl⟩ : c :: cs2 = c2 := by simpa using h2
          exact List.Sublist.cons₂ c (ih cs1 cs2 hr1 hr2)

theorem matchesDim_imp_unfiltered (dv : Dict String) (n k : String)
    (h : matchesDim dv n k = true) : matchesDim [] n k = true := by
  unfold matchesDim at h ⊢
  by_cases hs : pyStartsWith k ("Dim_Num" ++ n) = true
  · simp [hs, dictGet]
  · rw [if_neg (by simpa using hs)] at h
    exact absurd h (by simp)

theorem buildColAxis_go (catDim : Dict (List String)) (dv : Dict String) :
    ∀ (descrs : List DimDescription) (i0 : List (List String)) (n0 : List String)
      (I : List (List String)) (N : List String),
    descrs.foldlM (colAxisStep catDim dv) (i0, n0) = some (I, N) →
    ∃ I', dimColumnsList catDim dv (descrs.filter (fun d => !(d.dim_num == "1"))) = some I' ∧
      I = i0 ++ I' ∧
      N = n0 ++ (descrs.filter (fun d => !(d.dim_num == "1"))).map (fun d => d.abrv) := by
  intro descrs
  induction descrs with
  | nil =>
    intro i0 n0 I N h
    obtain ⟨rfl, rfl⟩ : i0 = I ∧ n0 = N := by
      simpa [List.foldlM, Prod.ext_iff] using h
    exact ⟨[], rfl, by simp, by simp⟩
  | cons d ds ih =>
    intro i0 n0 I N h
    rw [List.foldlM_cons] at h
    by_cases h1 : d.dim_num == "1"
    · simp only [colAxisStep, h1, if_true] at h
      have h' : ds.foldlM (colAxisStep catDim dv) (i0, n0) = some (I, N) := h
      obtain ⟨I', hI', hI, hN⟩ := ih i0 n0 I N h'
      refine ⟨I', ?_, hI, ?_⟩
      · simpa [List.filter_cons, h1] using hI'
      · simpa [List.filter_cons, h1] using hN
    · cases hc : dim_columns catDim dv d.dim_num with
      | none =>
        rw [show colAxisStep catDim dv (i0, n0) d = none by
          simp [colAxisStep, h1, hc]] at h
        exact absurd h (by simp)
      | some c =>
        rw [show colAxisStep catDim dv (i0, n0) d = some (i0 ++ [c], n0 ++ [d.abrv]) by
          simp [colAxisStep, h1, hc]] at h
        obtain ⟨I', hI', hI, hN⟩ := ih (i0 ++ [c]) (n0 ++ [d.abrv]) I N h
        have hcond : (!(d.dim_num == "1")) = true := by
          simp [h1]
        refine ⟨c :: I', ?_, ?_, ?_⟩
        · simp [List.filter_cons, hcond, dimColumnsList, hc, hI']
        · simp [hI]
        · simp only [List.filter_cons, hcond, if_true, List.map_cons]
          simpa using hN

theorem dimColumnsList_lengths (catDim : Dict (List String)) (dv : Dict String)
    (ds : List DimDescription) (I' : List (List String))
    (h : dimColumnsList catDim dv ds = some I') :
    I'.map List.length =
      ds.map (fun d => (catDim.filter (fun kv => matchesDim dv d.dim_num kv.1)).length) := by
  induction ds generalizing I' with
  | nil =>
    obtain ⟨rfl⟩ : ([] : List (List String)) = I' := by simpa [dimColumnsList] using h
    rfl
  | cons d ds ih =>
    simp only [dimColumnsList] at h
    cases hc : dim_columns catDim dv d.dim_num with
    | none => rw [hc] at h; exact absurd h (by simp)
    | some c =>
      rw [hc] at h
      cases hr : dimColumnsList catDim dv ds with
      | none => rw [hr] at h; exact absurd h (by simp)
      | some cs =>
        rw [hr] at h
        obtain ⟨rfl⟩ : c :: cs = I' := by simpa using h
        have hlen : c.length = (catDim.filter (fun kv => matchesDim dv d.dim_num kv.1)).length := by
          have := dim_columns_eq_headsOf catDim dv d.dim_num
          rw [hc] at this
          exact headsOf_length _ _ this.symm
        simp [hlen, ih cs hr]

theorem dimColumnsList_mem (catDim : Dict (List String)) (dv : Dict String)
    (ds : List DimDescription) (I' : List (List String))
    (h : dimColumnsList catDim dv ds = some I') :
    ∀ d ∈ ds, ∃ c ∈ I', dim_columns catDim dv d.dim_num = some c := by
  induction ds generalizing I' with
  | nil => intro d hd; exact absurd hd (by simp)
  | cons d0 ds ih =>
    simp only [dimColumnsList] at h
    cases hc : dim_columns catDim dv d0.dim_num with
    | none => rw [hc] at h; exact absurd h (by simp)
    | some c =>
      rw [hc] at h
      cases hr : dimColumnsList catDim dv ds with
      | none => rw [hr] at h; exact absurd h (by simp)
      | some cs =>
        rw [hr] at h
        obtain ⟨rfl⟩ : c :: cs = I' := by simpa using h
        intro d hd
        rcases List.mem_cons.mp hd with rfl | hd
        · exact ⟨c, by simp, hc⟩
        · obtain ⟨c2, hc2, hcol⟩ := ih cs hr d hd
          exact ⟨c2, by simp [hc2], hcol⟩

theorem listProd_length (ls : List (List String)) :
    (listProd ls).length = (ls.map List.length).prod := by
  induction ls with
  | nil => rfl
  | cons l ls ih =>
    have h1 : listProd (l :: ls) = l.flatMap (fun x => (listProd ls).map (fun t => x :: t)) := rfl
    rw [h1, List.length_flatMap]
    have h2 : (List.length ∘ fun x => (listProd ls).map (fun t => x :: t))
        = fun x => (listProd ls).length := by
      funext x
      simp
    rw [h2, List.map_const', List.sum_replicate, smul_eq_mul, ih, List.map_cons,
      List.prod_cons]

theorem listProd_nil_of_mem (ls : List (List String)) (h : [] ∈ ls) :
    listProd ls = [] := by
  induction ls with
  | nil => exact absurd h (by simp)
  | cons l ls ih =>
    rcases List.mem_cons.mp h with rfl | h2
    · rfl
    · simp [listProd, ih h2]

/-!
C3: the names and the first level of the built column axis.
-/

/-- C3 counterexample: with dimension 1 carrying category "Portugal" and
dimension 2 carrying "Male"/"Female", the built axis's first level holds
dimension 2's categories, not dimension 1's, and dimension 2's abbreviation
is discarded when the first level is renamed "Location". -/
theorem buildColAxis_location_counterexample :
    buildColAxis [⟨"1", "Geo"⟩, ⟨"2", "Sex"⟩, ⟨"3", "Age"⟩]
      [("Dim_Num1_PT", ["Portugal"]), ("Dim_Num2_M", ["Male"]),
       ("Dim_Num2_F", ["Female"]), ("Dim_Num3_X", ["X1"])] [] =
      some ([["Male", "Female"], ["X1"]], ["Sex", "Age"]) ∧
    colAxisNames ["Sex", "Age"] = ["Location", "Age"] ∧
    specDim1Categories
      [("Dim_Num1_PT", ["Portugal"]), ("Dim_Num2_M", ["Male"]),
       ("Dim_Num2_F", ["Female"]), ("Dim_Num3_X", ["X1"])] = ["Portugal"] ∧
    (["Male", "Female"] : List String) ≠ ["Portugal"] := by
  refine ⟨rfl, rfl, rfl, by simp⟩

/-- C3 amended: the first level of the built column axis is named "Location"
but its categories are those of the first dimension the loop does not skip
(dimension 2, whose abbreviation the renaming discards); each later level is
named by its dimension's abbreviation; dimensions with `dim_num` "1" are
skipped. -/
theorem buildColAxis_location_level (descrs : List DimDescription)
    (catDim : Dict (List String)) (dv : Dict String) (d2 : DimDescription)
    (rest : List DimDescription) (iters : List (List String)) (names : List String)
    (hfilter : descrs.filter (fun d => !(d.dim_num == "1")) = d2 :: rest)
    (hbuild : buildColAxis descrs catDim dv = some (iters, names)) :
    colAxisNames names = "Location" :: rest.map (fun d => d.abrv) ∧
    (∃ cols2, dim_columns catDim dv d2.dim_num = some cols2 ∧ iters.head? = some cols2) ∧
    iters.length = (d2 :: rest).length := by
  obtain ⟨I', hI', hI, hN⟩ := buildColAxis_go catDim dv descrs [] [] iters names hbuild
  rw [hfilter] at hI' hN
  simp only [List.nil_append] at hI hN
  rw [hI, hN]
  simp only [dimColumnsList] at hI'
  cases hc : dim_columns catDim dv d2.dim_num with
  | none => rw [hc] at hI'; exact absurd hI' (by simp)
  | some c =>
    rw [hc] at hI'
    cases hr : dimColumnsList catDim dv rest with
    | none => rw [hr] at hI'; exact absurd hI' (by simp)
    | some cs =>
      rw [hr] at hI'
      obtain ⟨rfl⟩ : c :: cs = I' := by simpa using hI'
      refine ⟨by simp [colAxisNames], ⟨c, rfl, rfl⟩, ?_⟩
      have h3 := dimColumnsList_lengths catDim dv rest cs hr
      have hlen : cs.length = rest.length := by
        have h2 := congrArg List.length h3
        simpa using h2
      simp [hlen]

/-- Witness for C3 at a three-dimension metadata payload. -/
theorem buildColAxis_location_level_witness :
    colAxisNames ["Sex", "Age"] = ["Location", "Age"] ∧
    (∃ cols2, dim_columns
        [("Dim_Num1_PT", ["Portugal"]), ("Dim_Num2_M", ["Male"]),
         ("Dim_Num2_F", ["Female"]), ("Dim_Num3_X", ["X1"])] [] "2" = some cols2 ∧
      ([["Male", "Female"], ["X1"]] : List (List String)).head? = some cols2) ∧
    ([["Male", "Female"], ["X1"]] : List (List String)).length =
      ([⟨"2", "Sex"⟩, ⟨"3", "Age"⟩] : List DimDescription).length :=
  buildColAxis_location_level [⟨"1", "Geo"⟩, ⟨"2", "Sex"⟩, ⟨"3", "Age"⟩]
    [("Dim_Num1_PT", ["Portugal"]), ("Dim_Num2_M", ["Male"]),
     ("Dim_Num2_F", ["Female"]), ("Dim_Num3_X", ["X1"])] []
    ⟨"2", "Sex"⟩ [⟨"3", "Age"⟩] [["Male", "Female"], ["X1"]] ["Sex", "Age"] rfl rfl

/-!
C6: cardinality of the built column axis under filters.
-/

/-- C6: the cardinality of the built column axis equals the product, over
the non-skipped dimensions, of that dimension's retained-category count (the
number of `Categoria_Dim` keys the scan retains for it); a filter value
matching exactly one key collapses that dimension's factor to 1, retaining
exactly that key's category; filtering never reorders the retained
categories (the filtered list is a sublist of the unfiltered one); and a
dimension whose filter matches no key has an empty category list, making the
whole column set empty. -/
theorem colAxis_cardinality (descrs : List DimDescription) (catDim : Dict (List String))
    (dv : Dict String) (iters : List (List String)) (names : List String)
    (hbuild : buildColAxis descrs catDim dv = some (iters, names)) :
    (listProd iters).length =
      ((descrs.filter (fun d => !(d.dim_num == "1"))).map
        (fun d => (catDim.filter (fun kv => matchesDim dv d.dim_num kv.1)).length)).prod ∧
    (∀ n v c kv, dictGet dv ("Dim" ++ n) = some v →
      catDim.filter (fun kv2 => matchesDim dv n kv2.1) = [kv] →
      kv.2.head? = some c →
      dim_columns catDim dv n = some [c]) ∧
    (∀ n cols colsAll, dim_columns catDim dv n = some cols →
      dim_columns catDim [] n = some colsAll → cols.Sublist colsAll) ∧
    (∀ d ∈ descrs, (!(d.dim_num == "1")) = true →
      catDim.filter (fun kv => matchesDim dv d.dim_num kv.1) = [] →
      listProd iters = []) := by
  obtain ⟨I', hI', hI, _⟩ := buildColAxis_go catDim dv descrs [] [] iters names hbuild
  simp only [List.nil_append] at hI
  refine ⟨?_, ?_, ?_, ?_⟩
  · rw [listProd_length, hI, dimColumnsList_lengths catDim dv _ I' hI']
  · intro n v c kv hv hone hc
    rw [dim_columns_eq_headsOf, hone]
    simp [headsOf, hc]
  · intro n cols colsAll h1 h2
    rw [dim_columns_eq_headsOf] at h1 h2
    refine headsOf_sublist _ _ ?_ cols colsAll h1 h2
    exact List.monotone_filter_right catDim (fun kv hm => matchesDim_imp_unfiltered dv n kv.1 hm)
  · intro d hd hnon hempty
    have hmem : d ∈ descrs.filter (fun d => !(d.dim_num == "1")) :=
      List.mem_filter.mpr ⟨hd, hnon⟩
    obtain ⟨c, hcI, hcol⟩ := dimColumnsList_mem catDim dv _ I' hI' d hmem
    rw [dim_columns_eq_headsOf, hempty] at hcol
    obtain ⟨rfl⟩ : ([] : List String) = c := by simpa [headsOf] using hcol
    rw [hI]
    exact listProd_nil_of_mem I' hcI

/-- Witness for C6: two retained categories for dimension 2, one for the
filtered dimension 3, giving a two-column axis. -/
theorem colAxis_cardinality_witness :
    (listProd [["Male", "Female"], ["Y1"]]).length = 2 := by
  have h := (colAxis_cardinality [⟨"1", "Geo"⟩, ⟨"2", "Sex"⟩, ⟨"3", "Age"⟩]
    [("Dim_Num2_M", ["Male"]), ("Dim_Num2_F", ["Female"]),
     ("Dim_Num3_X", ["X1"]), ("Dim_Num3_Y", ["Y1"])]
    [("Dim3", "Y")] [["Male", "Female"], ["Y1"]] ["Sex", "Age"] rfl).1
  exact h.trans (by rfl)

/-!
Lemmas about key sets of the dict embedding, used for the metadata merger.
-/

theorem dictGet_none_not_keys {α : Type} (d : Dict α) (k : String)
    (h : dictGet d k = none) : k ∉ d.map Prod.fst := by
  induction d with
  | nil => simp
  | cons kv rest ih =>
    by_cases hk : kv.1 = k
    · simp [dictGet, hk] at h
    · simp only [dictGet, if_neg hk] at h
      simp only [List.map_cons, List.mem_cons]
      rintro (rfl | hmem)
      · exact hk rfl
      · exact ih h hmem

theorem keys_map_replace {α : Type} (d : Dict α) (k : String) (v : α) :
    (d.map (fun kv => if kv.1 = k then (k, v) else kv)).map Prod.fst = d.map Prod.fst := by
  induction d with
  | nil => rfl
  | cons kv rest ih =>
    by_cases hk : kv.1 = k
    · simp [hk, ih]
    · simp [hk, ih]

theorem nodup_keys_dictInsert {α : Type} (d : Dict α) (k : String) (v : α)
    (h : (d.map Prod.fst).Nodup) : ((dictInsert d k v).map Prod.fst).Nodup := by
  unfold dictInsert
  by_cases hp : (dictGet d k).isSome
  · rw [if_pos hp, keys_map_replace]
    exact h
  · rw [if_neg hp]
    have hnot : k ∉ d.map Prod.fst :=
      dictGet_none_not_keys d k (Option.not_isSome_iff_eq_none.mp hp)
    simp [List.nodup_append, h, hnot]

theorem nodup_keys_dictUnion {α : Type} (d m : Dict α)
    (h : (d.map Prod.fst).Nodup) : ((dictUnion d m).map Prod.fst).Nodup := by
  induction m generalizing d with
  | nil => exact h
  | cons kv rest ih => exact ih (dictInsert d kv.1 kv.2) (nodup_keys_dictInsert d kv.1 kv.2 h)

theorem dictGet_dictUnion_right {α : Type} (d m : Dict α) (K : String) (v : α)
    (hnm : (m.map Prod.fst).Nodup) (h : dictGet m K = some v) :
    dictGet (dictUnion d m) K = some v := by
  obtain ⟨pre, post, rfl, hpre⟩ := dictGet_eq_some_split m K v h
  have hpost : ∀ kv ∈ post, kv.1 ≠ K := by
    intro kv hkv
    have h0 : (pre.map Prod.fst ++ K :: post.map Prod.fst).Nodup := by
      simpa using hnm
    have h1 : (K :: post.map Prod.fst).Nodup := (List.nodup_append.mp h0).2.1
    have h2 : K ∉ post.map Prod.fst := (List.nodup_cons.mp h1).1
    intro hc
    exact h2 (hc ▸ List.mem_map_of_mem Prod.fst hkv)
  unfold dictUnion
  rw [List.foldl_append, List.foldl_cons]
  rw [foldl_dictInsert_preserve K post _ hpost]
  exact dictGet_dictInsert_self _ K v

/-!
Lemmas about the merge loop.
-/

theorem canonKey_not_excluded (k : String)
    (h : excludedMergeKeys.contains k = false) :
    excludedMergeKeys.contains (canonKey k) = false := by
  unfold canonKey
  cases hg : dictGet metadata_key_map k with
  | none => simpa using h
  | some v =>
    have hmem := dictGet_mem _ _ _ hg
    have hall : ∀ p ∈ metadata_key_map, excludedMergeKeys.contains p.2 = false := by decide
    simpa using hall (k, v) hmem

theorem mergeStep_some_cases (metaP : Dict JSON) (acc : Dict JSON) (kv : String × JSON)
    (acc' : Dict JSON) (h : mergeStep metaP acc kv = some acc') :
    acc' = acc ∨
      ∃ v, excludedMergeKeys.contains kv.1 = false ∧
        acc' = dictInsert acc (canonKey kv.1) v := by
  unfold mergeStep at h
  by_cases hexc : excludedMergeKeys.contains kv.1
  · rw [if_pos hexc] at h
    exact Or.inl (by simpa using h.symm)
  · rw [if_neg hexc] at h
    by_cases hdate : dateMergeKeys.contains kv.1
    · rw [if_pos hdate] at h
      cases hp : dictGet metaP "Periodic" with
      | none =>
        simp only [hp] at h
        exact absurd h (by simp)
      | some pj =>
        cases pj with
        | str p =>
          simp only [hp] at h
          cases hn : normalizePeriodValue p kv.2 with
          | none =>
            simp only [hn, Option.map_none'] at h
            exact absurd h (by simp)
          | some nv =>
            simp only [hn, Option.map_some'] at h
            exact Or.inr ⟨nv, by simpa using hexc, (Option.some.inj h).symm⟩
        | null =>
          simp only [hp] at h
          exact absurd h (by simp)
        | num q =>
          simp only [hp] at h
          exact absurd h (by simp)
        | arr l =>
          simp only [hp] at h
          exact absurd h (by simp)
        | obj kvs =>
          simp only [hp] at h
          exact absurd h (by simp)
    · rw [if_neg hdate] at h
      refine Or.inr ⟨kv.2, by simpa using hexc, ?_⟩
      simpa using h.symm

theorem mergeFold_preserve (metaP : Dict JSON) (c : String) :
    ∀ (items : List (String × JSON)) (acc m : Dict JSON),
    items.foldlM (mergeStep metaP) acc = some m →
    (∀ kv ∈ items, excludedMergeKeys.contains kv.1 = true ∨ canonKey kv.1 ≠ c) →
    dictGet m c = dictGet acc c := by
  intro items
  induction items with
  | nil =>
    intro acc m h hk
    obtain ⟨rfl⟩ : acc = m := by simpa using h
    rfl
  | cons kv rest ih =>
    intro acc m h hk
    rw [List.foldlM_cons] at h
    cases hs : mergeStep metaP acc kv with
    | none => rw [hs] at h; exact absurd h (by simp)
    | some acc' =>
      rw [hs] at h
      have hrest : dictGet m c = dictGet acc' c :=
        ih acc' m (by simpa using h) (fun x hx => hk x (List.mem_cons_of_mem kv hx))
      rcases mergeStep_some_cases metaP acc kv acc' hs with rfl | ⟨v, hexc, rfl⟩
      · exact hrest
      · rcases hk kv (List.mem_cons_self kv rest) with hl | hr
        · rw [hl] at hexc
          exact absurd hexc (by simp)
        · rw [hrest, dictGet_dictInsert_other acc (canonKey kv.1) v c (Ne.symm hr)]

theorem mergeFold_excluded (metaP : Dict JSON) :
    ∀ (items : List (String × JSON)) (acc m : Dict JSON),
    items.foldlM (mergeStep metaP) acc = some m →
    ∀ e, excludedMergeKeys.contains e = true → dictGet acc e = none → dictGet m e = none := by
  intro items
  induction items with
  | nil =>
    intro acc m h e he hacc
    obtain ⟨rfl⟩ : acc = m := by simpa using h
    exact hacc
  | cons kv rest ih =>
    intro acc m h e he hacc
    rw [List.foldlM_cons] at h
    cases hs : mergeStep metaP acc kv with
    | none => rw [hs] at h; exact absurd h (by simp)
    | some acc' =>
      rw [hs] at h
      refine ih acc' m (by simpa using h) e he ?_
      rcases mergeStep_some_cases metaP acc kv acc' hs with rfl | ⟨v, hexc, rfl⟩
      · exact hacc
      · have hcanon : excludedMergeKeys.contains (canonKey kv.1) = false :=
          canonKey_not_excluded kv.1 hexc
        have hne : e ≠ canonKey kv.1 := by
          intro hc
          rw [← hc] at hcanon
          rw [he] at hcanon
          exact absurd hcanon (by simp)
        rw [dictGet_dictInsert_other acc (canonKey kv.1) v e hne]
        exact hacc

/-!
C8: the metadata merger's collision behaviour and excluded fields.
-/

/-- C8 counterexample: "UltimoPeriodo" is present in both payloads, yet the
merged record's "last_period" holds the data payload's "UltimoPref" value
"2000" — not the metadata payload's value "2001" (nor its ISO-rendered form
"2001-01-01") — because both source keys canonicalize to "last_period" and
the later-iterated "UltimoPref" entry, which comes from the data payload,
wins. -/
theorem mergedMetadata_last_period_counterexample :
    ∃ m, mergedMetadata
        [("DataExtracao", .str "d1"), ("UltimoPeriodo", .str "1999"),
         ("UltimoPref", .str "2000")]
        [("DataExtracao", .str "d2"), ("Periodic", .str "Annual"),
         ("UltimoPeriodo", .str "2001")] = some m ∧
      dictGet [("DataExtracao", JSON.str "d1"), ("UltimoPeriodo", JSON.str "1999"),
        ("UltimoPref", JSON.str "2000")] "UltimoPeriodo" = some (.str "1999") ∧
      dictGet [("DataExtracao", JSON.str "d2"), ("Periodic", JSON.str "Annual"),
        ("UltimoPeriodo", JSON.str "2001")] "UltimoPeriodo" = some (.str "2001") ∧
      canonKey "UltimoPeriodo" = "last_period" ∧
      dictGet m "last_period" = some (.str "2000") ∧
      (JSON.str "2000" ≠ JSON.str "2001" ∧ JSON.str "2000" ≠ JSON.str "2001-01-01") := by
  refine ⟨_, rfl, rfl, rfl, rfl, rfl, by simp, by simp⟩

/-- C8 amended: for a key present in both payloads' scalars — other than the
excluded fields, the two ISO-reformatted period keys, and any key whose
canonical name is shared with another present key (such as the
"UltimoPref"/"UltimoPeriodo" pair, where the later-iterated source key wins
regardless of payload) — the merged record holds the metadata payload's
value at the key's canonical name; and the four excluded non-scalar source
fields never appear among the merged keys. -/
theorem mergedMetadata_metadata_value_wins (dataP metaP : Dict JSON) (K : String)
    (vd vm : JSON) (m : Dict JSON)
    (_hd : dictGet dataP K = some vd) (hm : dictGet metaP K = some vm)
    (hK1 : excludedMergeKeys.contains K = false)
    (hK2 : dateMergeKeys.contains K = false)
    (hnd : (dataP.map Prod.fst).Nodup) (hnm : (metaP.map Prod.fst).Nodup)
    (huniq : ∀ kv ∈ dictUnion dataP metaP, kv.1 ≠ K → canonKey kv.1 ≠ canonKey K)
    (hmm : mergedMetadata dataP metaP = some m) :
    dictGet m (canonKey K) = some vm ∧
    ∀ e, excludedMergeKeys.contains e = true → dictGet m e = none := by
  unfold mergedMetadata at hmm
  cases hde : dictGet dataP "DataExtracao" with
  | none => rw [hde] at hmm; exact absurd hmm (by simp)
  | some ded =>
    rw [hde] at hmm
    cases hme : dictGet metaP "DataExtracao" with
    | none => rw [hme] at hmm; exact absurd hmm (by simp)
    | some dem =>
      rw [hme] at hmm
      simp only [Option.bind_some] at hmm
      have hfold : (dictUnion dataP metaP).foldlM (mergeStep metaP)
          [("extraction_date", .obj [("data", ded), ("metadata", dem)]),
           ("source", .str "INE")] = some m := hmm
      have hU : dictGet (dictUnion dataP metaP) K = some vm :=
        dictGet_dictUnion_right dataP metaP K vm hnm hm
      obtain ⟨pre, post, hsplit, hpre⟩ := dictGet_eq_some_split _ K vm hU
      have hUnodup : ((dictUnion dataP metaP).map Prod.fst).Nodup :=
        nodup_keys_dictUnion dataP metaP hnd
      rw [hsplit] at hUnodup
      have hpost : ∀ kv ∈ post, kv.1 ≠ K := by
        intro kv hkv
        have h0 : (pre.map Prod.fst ++ K :: post.map Prod.fst).Nodup := by
          simpa using hUnodup
        have h1 : (K :: post.map Prod.fst).Nodup := (List.nodup_append.mp h0).2.1
        have h2 : K ∉ post.map Prod.fst := (List.nodup_cons.mp h1).1
        intro hc
        exact h2 (hc ▸ List.mem_map_of_mem Prod.fst hkv)
      rw [hsplit, List.foldlM_append] at hfold
      cases hp1 : pre.foldlM (mergeStep metaP)
          [("extraction_date", .obj [("data", ded), ("metadata", dem)]),
           ("source", .str "INE")] with
      | none => rw [hp1] at hfold; exact absurd hfold (by simp)
      | some acc1 =>
        rw [hp1] at hfold
        have hstepK : mergeStep metaP acc1 (K, vm) =
            some (dictInsert acc1 (canonKey K) vm) := by
          unfold mergeStep
          rw [if_neg (by simpa using hK1), if_neg (by simpa using hK2)]
        have hfold2 : (mergeStep metaP acc1 (K, vm)).bind
            (fun init => post.foldlM (mergeStep metaP) init) = some m := hfold
        rw [hstepK] at hfold2
        have hfold3 : post.foldlM (mergeStep metaP)
            (dictInsert acc1 (canonKey K) vm) = some m := hfold2
        have hpostcond : ∀ kv ∈ post,
            excludedMergeKeys.contains kv.1 = true ∨ canonKey kv.1 ≠ canonKey K := by
          intro kv hkv
          refine Or.inr (huniq kv ?_ (hpost kv hkv))
          rw [hsplit]
          simp [hkv]
        constructor
        · rw [mergeFold_preserve metaP (canonKey K) post _ m hfold3 hpostcond]
          exact dictGet_dictInsert_self acc1 (canonKey K) vm
        · intro e he
          have hinit : dictGet
              [("extraction_date", JSON.obj [("data", ded), ("metadata", dem)]),
               ("source", JSON.str "INE")] e = none := by
            have hememb : e ∈ excludedMergeKeys := by simpa using he
            fin_cases hememb <;> rfl
          have hacc1 : dictGet acc1 e = none :=
            mergeFold_excluded metaP pre _ acc1 hp1 e he hinit
          have hacc2 : dictGet (dictInsert acc1 (canonKey K) vm) e = none := by
            have hcanon : excludedMergeKeys.contains (canonKey K) = false :=
              canonKey_not_excluded K hK1
            have hne : e ≠ canonKey K := by
              intro hc
              rw [← hc] at hcanon
              rw [he] at hcanon
              exact absurd hcanon (by simp)
            rw [dictGet_dictInsert_other acc1 (canonKey K) vm e hne]
            exact hacc1
          exact mergeFold_excluded metaP post _ m hfold3 e he hacc2

/-- Witness for C8 at a key ("IndicadorDsg") present in both payloads. -/
theorem mergedMetadata_metadata_value_wins_witness :
    ∃ m, mergedMetadata
        [("DataExtracao", .str "d1"), ("IndicadorDsg", .str "from data")]
        [("DataExtracao", .str "d2"), ("IndicadorDsg", .str "from metadata")] = some m ∧
      dictGet m (canonKey "IndicadorDsg") = some (.str "from metadata") ∧
      dictGet m "Dados" = none := by
  cases hmm : mergedMetadata
      [("DataExtracao", .str "d1"), ("IndicadorDsg", .str "from data")]
      [("DataExtracao", .str "d2"), ("IndicadorDsg", .str "from metadata")] with
  | none => exact absurd hmm (by simp [mergedMetadata, dictGet, dictUnion, dictInsert,
      mergeStep, excludedMergeKeys, dateMergeKeys, canonKey, metadata_key_map])
  | some m =>
    have h := mergedMetadata_metadata_value_wins
      [("DataExtracao", .str "d1"), ("IndicadorDsg", .str "from data")]
      [("DataExtracao", .str "d2"), ("IndicadorDsg", .str "from metadata")]
      "IndicadorDsg" (.str "from data") (.str "from metadata") m
      rfl rfl rfl rfl (by simp) (by simp)
      (by decide) hmm
    exact ⟨m, rfl, h.1, h.2 "Dados" rfl⟩

/-!
C9: the coerced "Value" field of the exported flat records.
-/

/-- C9: every record of `to_dict`'s "data" list is the melt of one
(row, column) cell; its "Value" field is the coercion of that cell, which is
the null numeric marker when the cell is the "no value" marker (`NaN`) or
non-numeric — a numeric "Value" can only arise from a cell that actually
parses to that number, so a missing cell is never exported as the number 0 —
and the numeric value itself when the cell is numeric; the full export
places these records under the "data" key next to every metadata field. -/
theorem toDict_value_coercion (t : Table) :
    (∀ rec ∈ t.toDictData, ∃ i j, i < t.rowLabels.length ∧ j < t.colKeys.length ∧
      rec = t.record i j) ∧
    (∀ i j, i < t.rowLabels.length → j < t.colKeys.length →
      t.record i j ∈ t.toDictData ∧
      (t.record i j).getLast? = some ("Value", to_numeric_coerce (t.cellAt i j)) ∧
      (t.cellAt i j = none → to_numeric_coerce (t.cellAt i j) = JSON.null) ∧
      (∀ v, t.cellAt i j = some v → parseNumeric v = none →
        to_numeric_coerce (t.cellAt i j) = JSON.null) ∧
      (∀ v q, t.cellAt i j = some v → parseNumeric v = some q →
        to_numeric_coerce (t.cellAt i j) = JSON.num q) ∧
      (∀ q : Rat, to_numeric_coerce (t.cellAt i j) = JSON.num q →
        ∃ v, t.cellAt i j = some v ∧ parseNumeric v = some q)) ∧
    (∀ md, dictGet (Indicator.to_dict t md) "data" =
      some (.arr (t.toDictData.map JSON.obj))) := by
  refine ⟨?_, ?_, ?_⟩
  · intro rec hrec
    unfold Table.toDictData at hrec
    obtain ⟨j, hj, hrec2⟩ := List.mem_flatMap.mp hrec
    obtain ⟨i, hi, rfl⟩ := List.mem_map.mp hrec2
    exact ⟨i, j, List.mem_range.mp hi, List.mem_range.mp hj, rfl⟩
  · intro i j hi hj
    refine ⟨?_, ?_, ?_, ?_, ?_, ?_⟩
    · unfold Table.toDictData
      exact List.mem_flatMap.mpr ⟨j, List.mem_range.mpr hj,
        List.mem_map.mpr ⟨i, List.mem_range.mpr hi, rfl⟩⟩
    · unfold Table.record
      rw [← List.cons_append, List.getLast?_concat]
    · intro h
      rw [h]
      rfl
    · intro v hv hp
      rw [hv]
      simp [to_numeric_coerce, hp]
    · intro v q hv hp
      rw [hv]
      simp [to_numeric_coerce, hp]
    · intro q hq
      cases hc : t.cellAt i j with
      | none =>
        rw [hc] at hq
        exact absurd hq (by simp [to_numeric_coerce])
      | some v =>
        rw [hc] at hq
        cases hp : parseNumeric v with
        | none =>
          rw [show to_numeric_coerce (some v) = JSON.null by
            simp [to_numeric_coerce, hp]] at hq
          exact absurd hq (by simp)
        | some q2 =>
          rw [show to_numeric_coerce (some v) = JSON.num q2 by
            simp [to_numeric_coerce, hp]] at hq
          obtain ⟨rfl⟩ : q2 = q := by simpa using hq
          exact ⟨v, rfl, hp⟩
  · intro md
    unfold Indicator.to_dict
    exact dictGet_dictInsert_self md "data" _

/-- Witness for C9 at a one-row, two-column table whose second cell is the
"no value" marker and whose first cell is a non-numeric string. -/
theorem toDict_value_coercion_witness :
    (Table.record ⟨[⟨2020, 1, 1⟩], ["Location"], [["PT"], ["ES"]],
        [[some (.str "abc"), none]]⟩ 0 1).getLast? = some ("Value", JSON.null) := by
  have h := ((toDict_value_coercion ⟨[⟨2020, 1, 1⟩], ["Location"], [["PT"], ["ES"]],
    [[some (.str "abc"), none]]⟩).2.1 0 1 (by decide) (by decide)).2.1
  exact h

end Pyine
